import Mathlib

/-!
Verification of the StreamGrab download backend against its specification.

The development shallowly embeds the pure logic of `home/views.py` and
`home/youtube_downloader.py`: Python strings become `String`, dictionaries
become association lists, and the external collaborators (the yt-dlp
extraction engine, the media fetch calls, the ffmpeg mux invocation, the
filesystem, and the stdlib header decoders) become explicit parameters so
that the orchestration logic itself stays executable and provable.
-/

namespace StreamGrab

/-- Substring occurrence on character lists: true when `pat` occurs
contiguously inside the second list.  Models the Python membership test
`pat in s` for strings. -/
def listContainsSub (pat : List Char) : List Char → Bool
  | [] => pat.isPrefixOf ([] : List Char)
  | c :: t => pat.isPrefixOf (c :: t) || listContainsSub pat t

/-- Python `pat in s` for strings. -/
def strContains (s pat : String) : Bool :=
  listContainsSub pat.data s.data

/-- views.py `get_platform`: fixed-order substring dispatch with the Shorts
check before the generic YouTube check; unmatched input yields unknown. -/
def getPlatform (url : String) : String :=
  if strContains url "youtube.com/shorts/" then "youtube_shorts"
  else if strContains url "youtube.com" || strContains url "youtu.be" then "youtube"
  else if strContains url "facebook.com" || strContains url "fb.watch" then "facebook"
  else if strContains url "instagram.com" then "instagram"
  else if strContains url "tiktok.com" then "tiktok"
  else "unknown"

/-- Consume `p` as a literal prefix of the second list, returning the rest. -/
def dropPre : List Char → List Char → Option (List Char)
  | [], l => some l
  | _ :: _, [] => none
  | p :: ps, c :: cs => if p = c then dropPre ps cs else none

/-- The tail matcher for the regex piece `.+`: at least one character, and
the first matched character may not be a newline. -/
def restOk : List Char → Bool
  | [] => false
  | c :: _ => c != '\n'

/-- Alternatives of the optional regex group `(https?://)?`. -/
def ytSchemes : List (List Char) :=
  ["https://".data, "http://".data, ([] : List Char)]

/-- Alternatives of the optional regex group `(www\.)?`. -/
def ytWww : List (List Char) :=
  ["www.".data, ([] : List Char)]

/-- Alternatives of `(youtube|youtu)\.(com|be)/`. -/
def ytDomains : List (List Char) :=
  ["youtube.com/".data, "youtube.be/".data, "youtu.com/".data, "youtu.be/".data]

/-- youtube_downloader.py `is_youtube_url`: Python
`re.match(r'(https?://)?(www\.)?(youtube|youtu)\.(com|be)/.+', url)`.
`re.match` anchors at the start only, so the regex is equivalent to trying
every combination of the optional groups as a literal prefix followed by at
least one non-newline character. -/
def is_youtube_url (url : String) : Bool :=
  ytSchemes.any fun s =>
    ytWww.any fun w =>
      ytDomains.any fun d =>
        match dropPre (s ++ w ++ d) url.data with
        | some rest => restOk rest
        | none => false

/-- One entry of the format list reported by the extraction engine.  Fields
mirror the dictionary keys read by the source: `format_note` and `height`
via `f.get` (a missing or null height is `none`; the source default `0`
matches none of the canonical heights, so `none` models both), `acodec` and
`abr` via `f.get` with their respective defaults applied at use sites. -/
structure Format where
  format_note : String := ""
  format_id : String
  height : Option Nat := none
  acodec : Option String := none
  abr : Option Nat := none
deriving DecidableEq

/-- The value stored in the quality map: format id plus the string tag
written by `get_video_info` (progressive or video). -/
structure FormatRef where
  id : String
  type : String
deriving DecidableEq

/-- The quality map built by `get_video_info`; a Python dict modelled as an
association list with at most one entry per key. -/
abbrev QMap := List (String × FormatRef)

/-- Dict lookup. -/
def qlookup : QMap → String → Option FormatRef
  | [], _ => none
  | (k1, v) :: m, k => if k1 = k then some v else qlookup m k

/-- Python `k in dict`. -/
def hasKey (m : QMap) (k : String) : Bool :=
  (qlookup m k).isSome

/-- Dict write `m[k] = v`: at most one entry per key survives. -/
def dinsert (m : QMap) (k : String) (v : FormatRef) : QMap :=
  (k, v) :: m.filter fun p => decide (p.1 ≠ k)

/-- Python `f.get('acodec', 'none')`. -/
def acodecStr (f : Format) : String :=
  f.acodec.getD "none"

/-- The `resolution` variable of the `get_video_info` loop: initialised from
`format_note`, then overwritten by the exact-height if/elif chain. -/
def formatResolution (f : Format) : String :=
  if f.height = some 2160 then "2160p"
  else if f.height = some 1440 then "1440p"
  else if f.height = some 1080 then "1080p"
  else if f.height = some 720 then "720p"
  else if f.height = some 480 then "480p"
  else if f.height = some 360 then "360p"
  else f.format_note

/-- The classification written by `get_video_info`:
`if "audio" in f.get('acodec', 'none')` then progressive else video. -/
def formatKind (f : Format) : String :=
  if strContains (acodecStr f) "audio" then "progressive" else "video"

/-- One iteration of the `get_video_info` loop body: a format is recorded
only when its `resolution` string is non-empty (Python truthiness). -/
def buildStep (acc : QMap) (f : Format) : QMap :=
  if formatResolution f = "" then acc
  else dinsert acc (formatResolution f) ⟨f.format_id, formatKind f⟩

/-- The `available_qualities` dict built by `get_video_info` from the
format list of the extraction engine. -/
def buildQualityMap (formats : List Format) : QMap :=
  formats.foldl buildStep []

/-- The fixed preference list of `_find_best_quality_match`. -/
def qualityPreference : List String :=
  ["2160p", "1440p", "1080p", "720p", "480p", "360p", "240p", "144p"]

/-- The first loop of `_find_best_quality_match`: returns on the first
present key only when the request is best; a worst request (and any other
unmatched request) just continues. -/
def findLoop1 (requested : String) (avail : QMap) : List String → Option String
  | [] => none
  | q :: rest =>
    if hasKey avail q then
      if requested = "best" then some q
      else findLoop1 requested avail rest
    else findLoop1 requested avail rest

/-- The second loop of `_find_best_quality_match`: first present key of the
already-reversed preference list. -/
def findLoop2 (avail : QMap) : List String → Option String
  | [] => none
  | q :: rest => if hasKey avail q then some q else findLoop2 avail rest

/-- youtube_downloader.py `_find_best_quality_match`. -/
def findBestQualityMatch (requested : String) (avail : QMap) : Option String :=
  if hasKey avail requested then some requested
  else
    match findLoop1 requested avail qualityPreference with
    | some q => some q
    | none =>
      if requested = "worst" then findLoop2 avail qualityPreference.reverse
      else none

/-- Python whitespace stripped by `str.strip()`, restricted to the ASCII
range (the code paths proved below filter to ASCII before stripping). -/
def pyIsSpace (c : Char) : Bool :=
  c == ' ' || c == '\t' || c == '\n' || c == '\r' ||
    c == Char.ofNat 11 || c == Char.ofNat 12

/-- Python `str.strip()` on a character list. -/
def pyStripList (l : List Char) : List Char :=
  ((l.dropWhile pyIsSpace).reverse.dropWhile pyIsSpace).reverse

/-- The character class of both sanitizers:
backslash, slash, asterisk, question mark, colon, double quote, angle
brackets and pipe. -/
def illegalList : List Char :=
  ['\\', '/', '*', '?', ':', '"', '<', '>', '|']

/-- youtube_downloader.py `sanitize_filename`:
`re.sub(r'[<>:"/\\|?*]', '', filename).strip()` removes the illegal
characters (it does not replace them) and strips whitespace. -/
def sanitizeFilename (s : String) : String :=
  ⟨pyStripList (s.data.filter fun c => decide (c ∉ illegalList))⟩

/-- The opaque external collaborators used by the downloader: the metadata
extraction call (returning a title and a format list, or failing), the
media fetch call for one format id and output path, and the external mux
process.  An `Except.error` carries the exception or diagnostic message
the source turns into a Failure value. -/
structure Engine where
  extract : String → Option (String × List Format)
  fetch : String → String → Except String Unit
  mergeRun : String → String → String → Except String Unit

/-- The externally observable operations the orchestrator attempts, in
order: fetch of a format id to an output path, or a mux invocation. -/
inductive Op where
  | fetch (fmtId : String) (out : String)
  | mux (videoFile audioFile out : String)
deriving DecidableEq

/-- The result dictionary of the downloader: a success carries file path,
filename, and the temp_files entry (`none` when the source dict has no
such key, as in the progressive branch). -/
inductive DLResult where
  | success (file_path filename : String) (temp_files : Option (List String))
  | error (message : String)
deriving DecidableEq

/-- views.py reads `result.get('temp_files', [])` before serving. -/
def servedTempFiles : DLResult → List String
  | .success _ _ t => t.getD []
  | .error _ => []

/-- youtube_downloader.py `get_video_info`, with the engine call explicit:
on success it returns the title, the built quality map, and the full
format list retained for the merge-time audio lookup. -/
def getVideoInfo (eng : Engine) (url : String) : Option (String × QMap × List Format) :=
  match eng.extract url with
  | none => none
  | some (title, formats) => some (title, buildQualityMap formats, formats)

/-- youtube_downloader.py `_download_progressive`; also records the fetch
attempt. -/
def downloadProgressive (eng : Engine) (folder fmtId videoTitle : String) :
    DLResult × List Op :=
  let output_file := folder ++ "/" ++ videoTitle ++ ".mp4"
  match eng.fetch fmtId output_file with
  | .ok _ => (.success output_file (videoTitle ++ ".mp4") none, [.fetch fmtId output_file])
  | .error e => (.error e, [.fetch fmtId output_file])

/-- The audio candidate filter of `_download_and_merge`:
`f.get('acodec') != 'none' and f.get('abr') is not None`.  Note the
missing default: an absent acodec key yields Python `None`, which differs
from the string none and therefore passes the first test. -/
def audioCandidates (formats : List Format) : List Format :=
  formats.filter fun f => decide (f.acodec ≠ some "none") && f.abr.isSome

/-- Python `max(candidates, key=lambda f: f['abr'], default=None)`: the
first candidate of maximal bitrate, or `none` when there are no
candidates. -/
def bestAudio (formats : List Format) : Option Format :=
  match audioCandidates formats with
  | [] => none
  | f :: fs => some (fs.foldl (fun best g => if best.abr.getD 0 < g.abr.getD 0 then g else best) f)

/-- youtube_downloader.py `_download_and_merge`, with the attempted
operations recorded in order.  The audio candidate check precedes every
fetch; any failing step ends the run with its message. -/
def downloadAndMerge (eng : Engine) (folder fmtId videoTitle : String)
    (formats : List Format) : DLResult × List Op :=
  let video_file := folder ++ "/" ++ videoTitle ++ "_video.mp4"
  let audio_file := folder ++ "/" ++ videoTitle ++ "_audio.mp4"
  let output_file := folder ++ "/" ++ videoTitle ++ ".mp4"
  match bestAudio formats with
  | none => (.error "No valid audio formats found!", [])
  | some ba =>
    match eng.fetch fmtId video_file with
    | .error e => (.error e, [.fetch fmtId video_file])
    | .ok _ =>
      match eng.fetch ba.format_id audio_file with
      | .error e => (.error e, [.fetch fmtId video_file, .fetch ba.format_id audio_file])
      | .ok _ =>
        match eng.mergeRun video_file audio_file output_file with
        | .error e =>
          (.error e,
           [.fetch fmtId video_file, .fetch ba.format_id audio_file,
            .mux video_file audio_file output_file])
        | .ok _ =>
          (.success output_file (videoTitle ++ ".mp4") (some [video_file, audio_file]),
           [.fetch fmtId video_file, .fetch ba.format_id audio_file,
            .mux video_file audio_file output_file])

/-- The error message `Quality '<q>' not available!` (apostrophes written
via their code point). -/
def qualityNotAvailableMsg (q : String) : String :=
  "Quality " ++ String.singleton (Char.ofNat 39) ++ q ++
    String.singleton (Char.ofNat 39) ++ " not available!"

/-- youtube_downloader.py `download_video`: URL-shape gate, metadata
resolution, quality resolution, filename sanitizing, then the branch on
the format type.  The lookup of the selected quality cannot miss because
the resolver only returns keys of the map; the dead branch mirrors the
KeyError Python would raise there. -/
def downloadVideo (eng : Engine) (folder url quality : String) : DLResult × List Op :=
  if is_youtube_url url then
    match getVideoInfo eng url with
    | none => (.error "No available formats found!", [])
    | some (title, avail, fullFormats) =>
      if avail.isEmpty then (.error "No available formats found!", [])
      else
        match findBestQualityMatch quality avail with
        | none => (.error (qualityNotAvailableMsg quality), [])
        | some sq =>
          match qlookup avail sq with
          | none => (.error "KeyError", [])
          | some fmtInfo =>
            let videoTitle := sanitizeFilename title
            if fmtInfo.type = "progressive" then
              downloadProgressive eng folder fmtInfo.id videoTitle
            else
              downloadAndMerge eng folder fmtInfo.id videoTitle fullFormats
  else (.error "Invalid YouTube URL!", [])

/-- The filesystem as seen by the cleanup code of `file_iterator` in
views.py: which paths exist, and which removal attempts raise OSError. -/
structure FS where
  fileExists : String → Bool
  removeFails : String → Bool

/-- The temp-file loop of the cleanup: an existing file is removed unless
the removal raises; a raise is caught by the single surrounding handler,
which ends the whole cleanup.  Returns the paths actually removed. -/
def cleanupTemps (fs : FS) (removed : List String) : List String → List String
  | [] => removed
  | t :: rest =>
    if fs.fileExists t then
      if fs.removeFails t then removed
      else cleanupTemps fs (removed ++ [t]) rest
    else cleanupTemps fs removed rest

/-- The cleanup run after the chunk sequence of `file_iterator` is
exhausted: one try block removes the source path and then every existing
temp file; the single `except OSError: pass` swallows the first failure
and ends the cleanup.  Returns the paths actually removed. -/
def streamCleanup (fs : FS) (path : String) (temp_files : List String) : List String :=
  if fs.removeFails path then []
  else cleanupTemps fs [path] temp_files

/-- Lowercasing as used by the filename code: ASCII letters are lowered.
Models Python `str.lower()` on the inputs at issue (the decisions taken on
the lowered string — the two marker-prefix tests and the `.mp4` suffix
test — agree with full Unicode lowering, since their patterns consist of
ASCII characters no non-ASCII character lowers into). -/
def lowerList (l : List Char) : List Char :=
  l.map Char.toLower

/-- The lowered quoted-printable marker `=_utf-8_q_` tested by
`clean_filename`. -/
def qMarker : List Char := "=_utf-8_q_".data

/-- The lowered base64 marker `=_utf-8_b_` tested by `clean_filename`. -/
def bMarker : List Char := "=_utf-8_b_".data

/-- The canonical extension `.mp4`. -/
def mp4Suffix : List Char := ".mp4".data

/-- The argument handed to `base64.b64decode` by the B branch: the
filename with the ten-character marker removed, minus a trailing `=_`. -/
def stripBPart (filename : String) : String :=
  let part := filename.data.drop 10
  if ['=', '_'].isSuffixOf part then ⟨part.dropLast.dropLast⟩ else ⟨part⟩

/-- The sanitizer of views.py `clean_filename`:
`re.sub(r'[\\/*?:"<>|]', "_", filename)` replaces each illegal character
with an underscore. -/
def subIllegal (l : List Char) : List Char :=
  l.map fun c => if c ∈ illegalList then '_' else c

/-- views.py `clean_filename`.  The two stdlib decoders are opaque
collaborators passed as parameters: `qDecode` models the
`decode_header`-based branch applied to the whole filename, `bDecode`
models `base64.b64decode` plus UTF-8 decoding applied to the stripped
part; `none` models an exception, which the source turns into the
fallback name video.  After the decode step: illegal characters become
underscores, non-ASCII characters are dropped when `asciiOnly` is set,
whitespace is stripped, and `.mp4` is appended unless the lowered name
already ends with it. -/
def cleanFilename (qDecode bDecode : String → Option String) (asciiOnly : Bool)
    (filename : String) : String :=
  let fn : List Char :=
    if qMarker.isPrefixOf (lowerList filename.data) then
      match qDecode filename with
      | some d => d.data
      | none => "video".data
    else if bMarker.isPrefixOf (lowerList filename.data) then
      match bDecode (stripBPart filename) with
      | some d => d.data
      | none => "video".data
    else filename.data
  let f1 := subIllegal fn
  let f2 := if asciiOnly then f1.filter fun c => decide (c.toNat ≤ 127) else f1
  let f3 := pyStripList f2
  if mp4Suffix.isSuffixOf (lowerList f3) then ⟨f3⟩ else ⟨f3 ++ mp4Suffix⟩

/-- A decoder instantiation modelling a raising stdlib decoder. -/
def qdNone : String → Option String := fun _ => none

/-- A decoder instantiation modelling a raising base64 decoder (on the
inputs used below the real decoder raises: the stripped part has a number
of base64 data characters that is 1 more than a multiple of 4). -/
def bdNone : String → Option String := fun _ => none

/-- A decoder instantiation modelling decode_header on a string holding no
RFC 2047 encoded word (no such word fits without a question mark): the
header-decoding loop reassembles the input unchanged. -/
def qdId : String → Option String := fun t => some t

/-- A URL that contains youtube.com in its path but does not have the
anchored YouTube URL shape. -/
def exUrl : String := "https://example.com/youtube.com"

/-- A regular watch URL. -/
def ytUrl : String := "https://www.youtube.com/watch?v=abc"

/-- A small quality map used by witnesses. -/
def exMap : QMap := [("720p", ⟨"22", "video"⟩), ("360p", ⟨"18", "progressive"⟩)]

/-- A 720p format whose acodec is a real audio codec string: an audio
codec is present (the field is neither absent nor the string none). -/
def fmtMp4a : Format :=
  { format_note := "", format_id := "22", height := some 720,
    acodec := some "mp4a.40.2", abr := some 192 }

/-- A format whose reported height 1444 matches no canonical height but
whose format_note is non-empty. -/
def fmtOddHeight : Format :=
  { format_note := "1440p", format_id := "400", height := some 1444,
    acodec := some "none", abr := none }

/-- A 1080p-height format whose format_note disagrees with the canonical
label: the exact-height mapping overrides the note. -/
def fmtNoteClash : Format :=
  { format_note := "junk", format_id := "299", height := some 1080,
    acodec := some "none", abr := none }

/-- A video-only 1080p format: no audio codec, no bitrate. -/
def fmtNoAudioA : Format :=
  { format_note := "1080p", format_id := "137", height := some 1080,
    acodec := some "none", abr := none }

/-- A video-only 720p format: no audio codec, no bitrate. -/
def fmtNoAudioB : Format :=
  { format_note := "720p", format_id := "136", height := some 720,
    acodec := some "none", abr := none }

/-- A 720p format the source classifies as progressive (its acodec string
contains the substring audio). -/
def fmtProg : Format :=
  { format_note := "", format_id := "22", height := some 720,
    acodec := some "audio", abr := some 128 }

/-- An engine whose fetch and mux calls always succeed and whose metadata
call is never consulted by the runs below. -/
def engOk : Engine :=
  { extract := fun _ => none, fetch := fun _ _ => .ok (),
    mergeRun := fun _ _ _ => .ok () }

/-- An engine that reports one progressive 720p format and always fetches
successfully. -/
def engProg : Engine :=
  { extract := fun _ => some ("My Video", [fmtProg]), fetch := fun _ _ => .ok (),
    mergeRun := fun _ _ _ => .ok () }

/-- A filesystem where every file exists and every removal succeeds. -/
def fsAllOk : FS :=
  { fileExists := fun _ => true, removeFails := fun _ => false }

/-- A filesystem where every file exists and exactly the removal of the
path a raises OSError. -/
def fsOneBad : FS :=
  { fileExists := fun _ => true, removeFails := fun s => s == "a" }

theorem findLoop1_eq_find (avail : QMap) :
    ∀ l, findLoop1 "best" avail l = l.find? fun q => hasKey avail q := by
  intro l
  induction l with
  | nil => rfl
  | cons q rest ih =>
    cases hq : hasKey avail q with
    | true => simp [findLoop1, hq, List.find?_cons_of_pos]
    | false => simp [findLoop1, hq, List.find?_cons_of_neg, ih]

theorem findLoop1_eq_none (requested : String) (avail : QMap) (h : requested ≠ "best") :
    ∀ l, findLoop1 requested avail l = none := by
  intro l
  induction l with
  | nil => rfl
  | cons q rest ih =>
    cases hq : hasKey avail q with
    | true => simp [findLoop1, hq, h, ih]
    | false => simp [findLoop1, hq, ih]

theorem findLoop2_eq_find (avail : QMap) :
    ∀ l, findLoop2 avail l = l.find? fun q => hasKey avail q := by
  intro l
  induction l with
  | nil => rfl
  | cons q rest ih =>
    cases hq : hasKey avail q with
    | true => simp [findLoop2, hq, List.find?_cons_of_pos]
    | false => simp [findLoop2, hq, List.find?_cons_of_neg, ih]

/-- C1: the quality resolver implements the fixed four-step algorithm: an
exact key match is returned immediately; otherwise a best request returns
the first key of the preference list present in the map scanning top-down;
otherwise a worst request returns the first present key scanning
bottom-up; any other request yields NotFound. -/
theorem find_best_quality_match_spec (requested : String) (avail : QMap) :
    (hasKey avail requested = true →
      findBestQualityMatch requested avail = some requested) ∧
    (hasKey avail requested = false → requested = "best" →
      findBestQualityMatch requested avail =
        qualityPreference.find? fun q => hasKey avail q) ∧
    (hasKey avail requested = false → requested = "worst" →
      findBestQualityMatch requested avail =
        qualityPreference.reverse.find? fun q => hasKey avail q) ∧
    (hasKey avail requested = false → requested ≠ "best" → requested ≠ "worst" →
      findBestQualityMatch requested avail = none) := by
  refine ⟨?_, ?_, ?_, ?_⟩
  · intro h
    simp [findBestQualityMatch, h]
  · intro h hb
    subst hb
    rw [findBestQualityMatch, if_neg (by simp [h]), findLoop1_eq_find]
    cases hf : qualityPreference.find? fun q => hasKey avail q with
    | some q => rfl
    | none => simp
  · intro h hw
    subst hw
    rw [findBestQualityMatch, if_neg (by simp [h]),
      findLoop1_eq_none _ _ (by decide), findLoop2_eq_find]
    simp
  · intro h hb hw
    rw [findBestQualityMatch, if_neg (by simp [h]), findLoop1_eq_none _ _ hb]
    simp [hw]

/-- Witness for C1 at a concrete map: 720p is an exact match and a best
request resolves to the highest present key. -/
theorem find_best_quality_match_spec_witness :
    (hasKey exMap "720p" = true ∧ findBestQualityMatch "720p" exMap = some "720p") ∧
    (hasKey exMap "best" = false ∧ findBestQualityMatch "best" exMap = some "720p") ∧
    (hasKey exMap "worst" = false ∧ findBestQualityMatch "worst" exMap = some "360p") ∧
    (hasKey exMap "480p" = false ∧ findBestQualityMatch "480p" exMap = none) :=
  ⟨⟨rfl, (find_best_quality_match_spec "720p" exMap).1 rfl⟩,
   ⟨rfl, ((find_best_quality_match_spec "best" exMap).2.1 rfl rfl).trans rfl⟩,
   ⟨rfl, ((find_best_quality_match_spec "worst" exMap).2.2.1 rfl rfl).trans rfl⟩,
   ⟨rfl, (find_best_quality_match_spec "480p" exMap).2.2.2 rfl (by decide) (by decide)⟩⟩

/-- C7: the platform classifier is total; a URL containing the Shorts path
fragment is classified youtube_shorts whatever else it contains, and a URL
matching none of the platform patterns is classified unknown. -/
theorem get_platform_spec (url : String) :
    (strContains url "youtube.com/shorts/" = true →
      getPlatform url = "youtube_shorts") ∧
    (strContains url "youtube.com/shorts/" = false →
      strContains url "youtube.com" = false → strContains url "youtu.be" = false →
      strContains url "facebook.com" = false → strContains url "fb.watch" = false →
      strContains url "instagram.com" = false → strContains url "tiktok.com" = false →
      getPlatform url = "unknown") := by
  constructor
  · intro h
    simp [getPlatform, h]
  · intro h1 h2 h3 h4 h5 h6 h7
    simp [getPlatform, h1, h2, h3, h4, h5, h6, h7]

/-- Witness for C7: a Shorts URL with query parameters, and an unmatched
URL. -/
theorem get_platform_spec_witness :
    (strContains "https://youtube.com/shorts/xyz?f=1" "youtube.com/shorts/" = true ∧
      getPlatform "https://youtube.com/shorts/xyz?f=1" = "youtube_shorts") ∧
    getPlatform "https://example.org/clip" = "unknown" :=
  ⟨⟨rfl, (get_platform_spec "https://youtube.com/shorts/xyz?f=1").1 rfl⟩,
   (get_platform_spec "https://example.org/clip").2 rfl rfl rfl rfl rfl rfl rfl⟩

/-- C10: a URL whose path merely contains youtube.com is classified
youtube by the substring classifier, yet fails the anchored URL-shape
check of the orchestrator, which therefore returns the invalid-URL
failure without consulting the extraction engine (the result is
independent of the engine). -/
theorem url_gate_stronger_than_classifier :
    getPlatform exUrl = "youtube" ∧ is_youtube_url exUrl = false ∧
    ∀ (eng : Engine) (folder quality : String),
      downloadVideo eng folder exUrl quality = (.error "Invalid YouTube URL!", []) :=
  ⟨rfl, rfl, fun _ _ _ => rfl⟩

theorem audioCandidates_eq_nil (formats : List Format)
    (h : ∀ f ∈ formats, f.acodec = some "none" ∨ f.abr = none) :
    audioCandidates formats = [] := by
  rw [audioCandidates, List.filter_eq_nil_iff]
  intro f hf
  rcases h f hf with h1 | h1 <;> simp [h1]

/-- C4 (amended): when no format of the full list passes the audio
candidate filter, the merge branch fails with the exact message before
attempting any fetch — the recorded operation trace is empty, so in
particular no video intermediate has been fetched when the failure is
raised. -/
theorem merge_audio_missing_spec (eng : Engine) (folder fmtId title : String)
    (formats : List Format)
    (h : ∀ f ∈ formats, f.acodec = some "none" ∨ f.abr = none) :
    downloadAndMerge eng folder fmtId title formats =
      (.error "No valid audio formats found!", []) := by
  simp [downloadAndMerge, bestAudio, audioCandidates_eq_nil formats h]

/-- Witness for C4 at a concrete all-video format list and an engine whose
fetches would succeed. -/
theorem merge_audio_missing_spec_witness :
    (∀ f ∈ [fmtNoAudioA, fmtNoAudioB], f.acodec = some "none" ∨ f.abr = none) ∧
    downloadAndMerge engOk "downloads" "137" "title" [fmtNoAudioA, fmtNoAudioB] =
      (.error "No valid audio formats found!", []) :=
  ⟨by decide,
   merge_audio_missing_spec engOk "downloads" "137" "title" [fmtNoAudioA, fmtNoAudioB]
     (by decide)⟩

/-- C4 counterexample: with every format lacking an audio codec and a
bitrate, the failure is returned with an empty operation trace: the video
fetch the claim asserts to have happened never occurs (the engine here
would have succeeded on any fetch). -/
theorem merge_audio_missing_cex :
    downloadAndMerge engOk "downloads" "137" "ttl" [fmtNoAudioA, fmtNoAudioB] =
      (.error "No valid audio formats found!", []) ∧
    Op.fetch "137" "downloads/ttl_video.mp4" ∉
      (downloadAndMerge engOk "downloads" "137" "ttl" [fmtNoAudioA, fmtNoAudioB]).2 := by
  decide

theorem cleanupTemps_all_ok (fs : FS) (h : ∀ f, fs.removeFails f = false) :
    ∀ (temps : List String) (removed : List String),
      cleanupTemps fs removed temps = removed ++ temps.filter fs.fileExists := by
  intro temps
  induction temps with
  | nil => intro removed; simp [cleanupTemps]
  | cons t rest ih =>
    intro removed
    cases he : fs.fileExists t with
    | true => simp [cleanupTemps, he, h t, ih]
    | false => simp [cleanupTemps, he, ih]

/-- C5 (amended): when no removal raises, exhausting the chunk sequence
deletes the source file and then every existing path of temp_files; a
raising removal is swallowed by the single surrounding handler (never
escalated) but ends the cleanup, skipping the remaining files. -/
theorem stream_cleanup_spec (fs : FS) (path : String) (temps : List String)
    (h : ∀ f, fs.removeFails f = false) :
    streamCleanup fs path temps = path :: temps.filter fs.fileExists := by
  rw [streamCleanup, if_neg (by simp [h path]), cleanupTemps_all_ok fs h temps]
  rfl

/-- Witness for C5 on a filesystem where all removals succeed. -/
theorem stream_cleanup_spec_witness :
    fsAllOk.removeFails "src.mp4" = false ∧
    streamCleanup fsAllOk "src.mp4" ["a", "b"] = ["src.mp4", "a", "b"] :=
  ⟨rfl, (stream_cleanup_spec fsAllOk "src.mp4" ["a", "b"] fun _ => rfl).trans rfl⟩

/-- C5 counterexample: the removal of a raises; the removal of b would
have succeeded and b exists, yet b is never deleted — one failure
prevents the remaining deletions, contradicting the claim. -/
theorem stream_cleanup_cex :
    fsOneBad.removeFails "src.mp4" = false ∧
    fsOneBad.removeFails "b" = false ∧ fsOneBad.fileExists "b" = true ∧
    streamCleanup fsOneBad "src.mp4" ["a", "b"] = ["src.mp4"] ∧
    "b" ∉ streamCleanup fsOneBad "src.mp4" ["a", "b"] := by
  decide

theorem mem_dinsert {m : QMap} {k k1 : String} {v r : FormatRef}
    (h : (k1, r) ∈ dinsert m k v) : (k1 = k ∧ r = v) ∨ (k1, r) ∈ m := by
  rcases List.mem_cons.mp h with h1 | h1
  · left
    simpa using h1
  · right
    exact List.mem_of_mem_filter h1

theorem mem_buildStep {acc : QMap} {f : Format} {k : String} {r : FormatRef}
    (h : (k, r) ∈ buildStep acc f) :
    (k, r) ∈ acc ∨
      (formatResolution f ≠ "" ∧ k = formatResolution f ∧
        r = ⟨f.format_id, formatKind f⟩) := by
  by_cases hres : formatResolution f = ""
  · left
    simpa [buildStep, hres] using h
  · rcases mem_dinsert (show (k, r) ∈ dinsert acc (formatResolution f) _ by
      simpa [buildStep, hres] using h) with ⟨hk, hv⟩ | hmem
    · exact Or.inr ⟨hres, hk, hv⟩
    · exact Or.inl hmem

theorem mem_foldl_buildStep :
    ∀ (fs : List Format) (acc : QMap) (k : String) (r : FormatRef),
      (k, r) ∈ fs.foldl buildStep acc →
      (k, r) ∈ acc ∨ ∃ f, f ∈ fs ∧ formatResolution f ≠ "" ∧
        k = formatResolution f ∧ r = ⟨f.format_id, formatKind f⟩ := by
  intro fs
  induction fs with
  | nil => intro acc k r h; exact Or.inl h
  | cons g gs ih =>
    intro acc k r h
    rcases ih (buildStep acc g) k r h with hacc | ⟨f, hf, h1, h2, h3⟩
    · rcases mem_buildStep hacc with hacc2 | ⟨h1, h2, h3⟩
      · exact Or.inl hacc2
      · exact Or.inr ⟨g, List.mem_cons_self g gs, h1, h2, h3⟩
    · exact Or.inr ⟨f, List.mem_cons_of_mem g hf, h1, h2, h3⟩

/-- C2 (amended): every entry of the quality map is produced from some
reported format, whose kind tag is progressive exactly when the string
audio occurs as a substring of its acodec field (with the absent field
defaulting to none) — not by mere presence of an audio codec. -/
theorem quality_map_kind_spec (formats : List Format) (k : String) (r : FormatRef)
    (h : (k, r) ∈ buildQualityMap formats) :
    ∃ f, f ∈ formats ∧ formatResolution f = k ∧
      r = ⟨f.format_id,
        if strContains (acodecStr f) "audio" then "progressive" else "video"⟩ := by
  rcases mem_foldl_buildStep formats [] k r h with hnil | ⟨f, hf, _, h2, h3⟩
  · cases hnil
  · exact ⟨f, hf, h2.symm, by rw [h3]; rfl⟩

/-- Witness for C2 at a concrete map entry. -/
theorem quality_map_kind_spec_witness :
    ("720p", FormatRef.mk "22" "video") ∈ buildQualityMap [fmtMp4a] ∧
    ∃ f, f ∈ [fmtMp4a] ∧ formatResolution f = "720p" ∧
      FormatRef.mk "22" "video" = ⟨f.format_id,
        if strContains (acodecStr f) "audio" then "progressive" else "video"⟩ :=
  ⟨by decide, quality_map_kind_spec [fmtMp4a] "720p" ⟨"22", "video"⟩ (by decide)⟩

/-- C2 counterexample: a format carrying the real audio codec mp4a.40.2
(an audio codec is present: the field is neither absent nor none) is
nevertheless classified video, because the code tests for the substring
audio inside the codec string. -/
theorem quality_map_kind_cex :
    fmtMp4a.acodec.isSome = true ∧ acodecStr fmtMp4a ≠ "none" ∧
    buildQualityMap [fmtMp4a] = [("720p", ⟨"22", "video"⟩)] := by
  decide

theorem qlookup_filter_ne (k kd : String) (h : k ≠ kd) :
    ∀ m : QMap, qlookup (m.filter fun p => decide (p.1 ≠ kd)) k = qlookup m k := by
  intro m
  induction m with
  | nil => rfl
  | cons p m ih =>
    obtain ⟨a, b⟩ := p
    by_cases hak : a = kd
    · subst hak
      rw [List.filter_cons_of_neg (by simp), ih, qlookup,
        if_neg (fun hh => h hh.symm)]
    · rw [List.filter_cons_of_pos (by simp [hak]), qlookup, qlookup]
      by_cases hk : a = k
      · rw [if_pos hk, if_pos hk]
      · rw [if_neg hk, if_neg hk]
        exact ih

theorem hasKey_dinsert_self (m : QMap) (k : String) (v : FormatRef) :
    hasKey (dinsert m k v) k = true := by
  simp [hasKey, dinsert, qlookup]

theorem hasKey_dinsert (m : QMap) (k kd : String) (v : FormatRef)
    (h : hasKey m k = true) : hasKey (dinsert m kd v) k = true := by
  by_cases hk : kd = k
  · subst hk
    exact hasKey_dinsert_self m kd v
  · rw [hasKey, dinsert, qlookup, if_neg hk, qlookup_filter_ne k kd (fun hh => hk hh.symm)]
    exact h

theorem hasKey_buildStep (acc : QMap) (f : Format) (k : String)
    (h : hasKey acc k = true) : hasKey (buildStep acc f) k = true := by
  rw [buildStep]
  by_cases hres : formatResolution f = ""
  · simpa [hres]
  · rw [if_neg hres]
    exact hasKey_dinsert acc k (formatResolution f) _ h

theorem hasKey_foldl (fs : List Format) :
    ∀ (acc : QMap) (k : String), hasKey acc k = true →
      hasKey (fs.foldl buildStep acc) k = true := by
  induction fs with
  | nil => intro acc k h; exact h
  | cons g gs ih =>
    intro acc k h
    exact ih (buildStep acc g) k (hasKey_buildStep acc g k h)

theorem hasKey_build_of_mem (fs : List Format) (f : Format) (hmem : f ∈ fs)
    (hres : formatResolution f ≠ "") :
    hasKey (buildQualityMap fs) (formatResolution f) = true := by
  rw [buildQualityMap]
  suffices hgen : ∀ acc : QMap, hasKey (fs.foldl buildStep acc) (formatResolution f) = true by
    exact hgen []
  induction fs with
  | nil => cases hmem
  | cons g gs ih =>
    intro acc
    rcases List.mem_cons.mp hmem with hfg | hgs
    · subst hfg
      refine hasKey_foldl gs (buildStep acc f) (formatResolution f) ?_
      rw [buildStep, if_neg hres]
      exact hasKey_dinsert_self acc (formatResolution f) _
    · exact ih hgs (buildStep acc g)

/-- C3 (amended): the height-to-label mapping is exact for the six
canonical heights — each of 2160, 1440, 1080, 720, 480 and 360 yields its
canonical label, overriding any reported format_note; a non-canonical (or
absent) height falls back to the reported format_note as the label rather
than being approximated, and a format is dropped from the map only when
that resulting label is empty: every non-empty label of a listed format
is a key of the map, and every key of the map is non-empty. -/
theorem quality_map_label_spec (formats : List Format) (f : Format)
    (hmem : f ∈ formats) :
    ((f.height = some 2160 → formatResolution f = "2160p") ∧
     (f.height = some 1440 → formatResolution f = "1440p") ∧
     (f.height = some 1080 → formatResolution f = "1080p") ∧
     (f.height = some 720 → formatResolution f = "720p") ∧
     (f.height = some 480 → formatResolution f = "480p") ∧
     (f.height = some 360 → formatResolution f = "360p")) ∧
    (∀ h : Nat, f.height = some h →
      h ∉ ([2160, 1440, 1080, 720, 480, 360] : List Nat) →
      formatResolution f = f.format_note) ∧
    (f.height = none → formatResolution f = f.format_note) ∧
    (formatResolution f ≠ "" →
      hasKey (buildQualityMap formats) (formatResolution f) = true) ∧
    (∀ (k : String) (r : FormatRef), (k, r) ∈ buildQualityMap formats → k ≠ "") := by
  refine ⟨⟨?_, ?_, ?_, ?_, ?_, ?_⟩, ?_, ?_, ?_, ?_⟩
  · intro hh
    simp [formatResolution, hh]
  · intro hh
    simp [formatResolution, hh]
  · intro hh
    simp [formatResolution, hh]
  · intro hh
    simp [formatResolution, hh]
  · intro hh
    simp [formatResolution, hh]
  · intro hh
    simp [formatResolution, hh]
  · intro h hh hne
    have hs : ¬ (h = 2160) ∧ ¬ (h = 1440) ∧ ¬ (h = 1080) ∧ ¬ (h = 720) ∧
        ¬ (h = 480) ∧ ¬ (h = 360) := by simpa using hne
    obtain ⟨h1, h2, h3, h4, h5, h6⟩ := hs
    simp [formatResolution, hh, h1, h2, h3, h4, h5, h6]
  · intro h0
    simp [formatResolution, h0]
  · exact hasKey_build_of_mem formats f hmem
  · intro k r hkr
    rcases mem_foldl_buildStep formats [] k r hkr with hnil | ⟨g, _, hne, hk, _⟩
    · cases hnil
    · rw [hk]; exact hne

/-- Witness for C3: a canonical 1080 height maps to 1080p, overriding a
disagreeing format_note; the 1444-height format falls back to its
format_note label, which becomes a key of the map. -/
theorem quality_map_label_spec_witness :
    formatResolution fmtNoteClash = "1080p" ∧
    fmtNoteClash.format_note ≠ "1080p" ∧
    formatResolution fmtOddHeight = fmtOddHeight.format_note ∧
    hasKey (buildQualityMap [fmtOddHeight]) (formatResolution fmtOddHeight) = true :=
  ⟨(quality_map_label_spec [fmtNoteClash] fmtNoteClash (by decide)).1.2.2.1 rfl,
   by decide,
   (quality_map_label_spec [fmtOddHeight] fmtOddHeight (by decide)).2.1 1444 rfl (by decide),
   (quality_map_label_spec [fmtOddHeight] fmtOddHeight (by decide)).2.2.2.1 (by decide)⟩

/-- C3 counterexample: a format with height 1444 — not one of the six
canonical heights — is not dropped: it enters the map under its
format_note label. -/
theorem quality_map_label_cex :
    fmtOddHeight.height = some 1444 ∧
    (1444 : Nat) ∉ ([2160, 1440, 1080, 720, 480, 360] : List Nat) ∧
    buildQualityMap [fmtOddHeight] = [("1440p", ⟨"400", "video"⟩)] := by
  decide

/-- C6: a request whose resolved format ref has kind progressive and whose
single fetch succeeds yields a Success result naming the final file
`<title>.mp4` (under the download folder), whose served temp_files list —
`result.get('temp_files', [])` in views.py — is empty. -/
theorem progressive_download_spec (eng : Engine) (folder url quality title : String)
    (formats : List Format) (sq : String) (r : FormatRef)
    (hurl : is_youtube_url url = true)
    (hext : eng.extract url = some (title, formats))
    (hmatch : findBestQualityMatch quality (buildQualityMap formats) = some sq)
    (hlook : qlookup (buildQualityMap formats) sq = some r)
    (hprog : r.type = "progressive")
    (hfetch : eng.fetch r.id (folder ++ "/" ++ sanitizeFilename title ++ ".mp4") = .ok ()) :
    downloadVideo eng folder url quality =
      (.success (folder ++ "/" ++ sanitizeFilename title ++ ".mp4")
        (sanitizeFilename title ++ ".mp4") none,
       [.fetch r.id (folder ++ "/" ++ sanitizeFilename title ++ ".mp4")]) ∧
    servedTempFiles (downloadVideo eng folder url quality).1 = [] := by
  have hne : (buildQualityMap formats).isEmpty = false := by
    cases hb : buildQualityMap formats with
    | nil => rw [hb] at hlook; cases hlook
    | cons a m => rfl
  have h1 : downloadVideo eng folder url quality =
      (.success (folder ++ "/" ++ sanitizeFilename title ++ ".mp4")
        (sanitizeFilename title ++ ".mp4") none,
       [.fetch r.id (folder ++ "/" ++ sanitizeFilename title ++ ".mp4")]) := by
    simp [downloadVideo, hurl, getVideoInfo, hext, hne, hmatch, hlook, hprog,
      downloadProgressive, hfetch]
  exact ⟨h1, by rw [h1]; rfl⟩

/-- Witness for C6 at a concrete engine reporting one progressive 720p
format. -/
theorem progressive_download_spec_witness :
    servedTempFiles (downloadVideo engProg "downloads" ytUrl "720p").1 = [] :=
  (progressive_download_spec engProg "downloads" ytUrl "720p" "My Video" [fmtProg]
    "720p" ⟨"22", "progressive"⟩ rfl rfl (by decide) (by decide) rfl rfl).2

theorem subIllegal_id (l : List Char) (h : ∀ c ∈ l, c ∉ illegalList) :
    subIllegal l = l := by
  induction l with
  | nil => rfl
  | cons c t ih =>
    rw [subIllegal, List.map_cons, if_neg (h c (List.mem_cons_self c t))]
    rw [subIllegal] at ih
    rw [ih fun d hd => h d (List.mem_cons_of_mem c hd)]

theorem filter_ascii_id (l : List Char) (h : ∀ c ∈ l, c.toNat ≤ 127) :
    (l.filter fun c => decide (c.toNat ≤ 127)) = l :=
  List.filter_eq_self.mpr fun a ha => by simpa using h a ha

theorem lower_map_mp4 : List.map Char.toLower mp4Suffix = mp4Suffix := by decide

theorem lower_suffix_mp4 {l : List Char} (h : mp4Suffix <:+ l) :
    mp4Suffix.isSuffixOf (lowerList l) = true := by
  obtain ⟨t, ht⟩ := h
  subst ht
  rw [List.isSuffixOf_iff_suffix, lowerList, List.map_append, lower_map_mp4]
  exact List.suffix_append _ _

/-- C8 (amended): the cleaner is the identity on a name that is pure
ASCII, ends with the literal extension .mp4, contains no illegal
character, carries no leading or trailing whitespace (the code strips
whitespace), and does not start — case-insensitively — with the base64
encoded-word marker (that branch replaces the name with decoded bytes or
the fallback).  A name starting with the quoted-printable marker is still
returned unchanged: such a name contains no question mark (an illegal
character), hence no RFC 2047 encoded word, and decode_header returns it
as-is — captured by the hypothesis that `qDecode` is the identity on
strings without a question mark. -/
theorem clean_filename_idem_spec (qDecode bDecode : String → Option String)
    (s : String)
    (hqd : ∀ t : String, '?' ∉ t.data → qDecode t = some t)
    (hascii : ∀ c ∈ s.data, c.toNat ≤ 127)
    (hillegal : ∀ c ∈ s.data, c ∉ illegalList)
    (hstrip : pyStripList s.data = s.data)
    (hsuffix : mp4Suffix <:+ s.data)
    (hb : bMarker.isPrefixOf (lowerList s.data) = false) :
    cleanFilename qDecode bDecode true s = s := by
  have hq : qDecode s = some s := hqd s fun hc => hillegal '?' hc (by decide)
  by_cases hqpre : qMarker.isPrefixOf (lowerList s.data) = true
  · obtain ⟨l⟩ := s
    rw [cleanFilename]
    simp only [hqpre, if_true, hq]
    rw [subIllegal_id _ hillegal, filter_ascii_id _ hascii, hstrip,
      if_pos (lower_suffix_mp4 hsuffix)]
  · have hq2 : qMarker.isPrefixOf (lowerList s.data) = false := by
      simp only [Bool.not_eq_true] at hqpre
      exact hqpre
    obtain ⟨l⟩ := s
    rw [cleanFilename]
    simp only [hq2, hb, if_false, Bool.false_eq_true, if_true]
    rw [subIllegal_id _ hillegal, filter_ascii_id _ hascii, hstrip,
      if_pos (lower_suffix_mp4 hsuffix)]

/-- Witness for C8 at a concrete already-clean name and at a concrete
q-marker name (with the decoder acting as decode_header does on
encoded-word-free input). -/
theorem clean_filename_idem_spec_witness :
    cleanFilename qdId bdNone true "a.mp4" = "a.mp4" ∧
    cleanFilename qdId bdNone true "=_utf-8_q_x.mp4" = "=_utf-8_q_x.mp4" :=
  ⟨clean_filename_idem_spec qdId bdNone "a.mp4" (fun _ _ => rfl) (by decide)
     (by decide) (by decide) (by decide) (by decide),
   clean_filename_idem_spec qdId bdNone "=_utf-8_q_x.mp4" (fun _ _ => rfl) (by decide)
     (by decide) (by decide) (by decide) (by decide)⟩

/-- C8 counterexample: two pure-ASCII names ending in .mp4 with no illegal
character that the cleaner changes: a name with a leading space is
stripped, and a name starting with the base64 encoded-word marker is
replaced by the fallback (the real decoder raises here: stripping the
marker leaves ab.mp4, whose five base64 data characters are one more than
a multiple of four). -/
theorem clean_filename_idem_cex :
    (" a.mp4".data.all fun c => decide (c.toNat ≤ 127) && decide (c ∉ illegalList)) = true ∧
    mp4Suffix.isSuffixOf " a.mp4".data = true ∧
    cleanFilename qdNone bdNone true " a.mp4" = "a.mp4" ∧
    " a.mp4" ≠ "a.mp4" ∧
    ("=_utf-8_b_ab.mp4".data.all fun c => decide (c.toNat ≤ 127) && decide (c ∉ illegalList)) = true ∧
    cleanFilename qdNone bdNone true "=_utf-8_b_ab.mp4" = "video.mp4" := by
  decide

/-- C9 (amended): for every input and decoder behaviour the cleaner
returns a non-empty name that ends with .mp4 up to ASCII case (the code
tests the lowercased name before appending, so a name already ending in
.MP4 is kept); but an input whose decoded and sanitized form is empty
yields the bare extension .mp4 — the generic fallback video appears only
when an encoded-word decode fails, so the worst case is extension-only,
not a generic name plus the extension. -/
theorem clean_filename_ext_spec (qDecode bDecode : String → Option String)
    (asciiOnly : Bool) (s : String) :
    mp4Suffix <:+ lowerList (cleanFilename qDecode bDecode asciiOnly s).data ∧
    cleanFilename qDecode bDecode asciiOnly s ≠ "" := by
  have hsuf : mp4Suffix <:+ lowerList (cleanFilename qDecode bDecode asciiOnly s).data := by
    rw [cleanFilename]
    set f3 := pyStripList _ with hf3
    by_cases hend : mp4Suffix.isSuffixOf (lowerList f3) = true
    · rw [if_pos hend]
      exact List.isSuffixOf_iff_suffix.mp hend
    · rw [if_neg hend]
      show mp4Suffix <:+ lowerList (f3 ++ mp4Suffix)
      rw [lowerList, List.map_append, lower_map_mp4]
      exact List.suffix_append _ _
  refine ⟨hsuf, fun hemp => ?_⟩
  rw [hemp] at hsuf
  have hlen := hsuf.length_le
  simp [lowerList, mp4Suffix] at hlen

/-- C9 counterexample: the empty input yields the bare extension (an
extension-only name, not a generic safe name plus the extension), and an
input ending in .MP4 is returned without a literal .mp4 suffix. -/
theorem clean_filename_ext_cex :
    cleanFilename qdNone bdNone true "" = ".mp4" ∧
    cleanFilename qdNone bdNone true "a.MP4" = "a.MP4" ∧
    ¬ (mp4Suffix <:+ "a.MP4".data) := by
  decide

end StreamGrab
